import Mathlib

/-!
Verification of `gen_requirements.py`: a one-shot tool that scans a project
for import statements, classifies each imported name (local / stdlib /
third-party / unknown), resolves third-party names to installed
distributions, and writes a pinned `requirements.txt`.

The embedding below translates the script's pure logic into Lean.
Strings are modelled through their character lists (`String.data`), which
matches CPython's code-point-wise string comparison; filesystem and
interpreter state (`Path.exists`, `importlib.util.find_spec`,
`importlib.metadata`) are modelled as explicit environment records passed
to each function, exactly as the script threads them through its calls.
Paths use the POSIX separator `/` (`os.sep`); `os.path.normcase` composed
with `os.path.abspath` is kept abstract as an environment field `norm`.
-/

/-! ## String primitives (code-point semantics of CPython string ops) -/

/-- Lexicographic code-point comparison of character lists; embeds the
comparison Python's `sorted` / `list.sort` performs on strings. -/
def listLe : List Char → List Char → Bool
  | [], _ => true
  | _ :: _, [] => false
  | a :: as, b :: bs => decide (a < b) || (a == b && listLe as bs)

/-- Python string `<=` (code-point lexicographic order). -/
def pyStrLe (a b : String) : Bool := listLe a.data b.data

/-- The `<=` order on strings as a propositional relation, for sorting. -/
def strLeRel (a b : String) : Prop := pyStrLe a b = true

instance : DecidableRel strLeRel := fun a b => inferInstanceAs (Decidable (_ = true))

theorem listLe_total : ∀ as bs : List Char, listLe as bs = true ∨ listLe bs as = true
  | [], _ => Or.inl rfl
  | _ :: _, [] => Or.inr (by rfl)
  | a :: as, b :: bs => by
    rcases lt_trichotomy a b with h | h | h
    · left; simp [listLe, h]
    · subst h
      rcases listLe_total as bs with ih | ih
      · left; simp [listLe, ih]
      · right; simp [listLe, ih]
    · right; simp [listLe, h]

theorem listLe_trans : ∀ as bs cs : List Char,
    listLe as bs = true → listLe bs cs = true → listLe as cs = true
  | [], _, _, _, _ => rfl
  | a :: as, b :: bs, c :: cs, h₁, h₂ => by
    simp only [listLe, Bool.or_eq_true, decide_eq_true_eq, Bool.and_eq_true, beq_iff_eq] at *
    rcases h₁ with h₁ | ⟨rfl, h₁⟩
    · rcases h₂ with h₂ | ⟨rfl, h₂⟩
      · exact Or.inl (lt_trans h₁ h₂)
      · exact Or.inl h₁
    · rcases h₂ with h₂ | ⟨rfl, h₂⟩
      · exact Or.inl h₂
      · exact Or.inr ⟨rfl, listLe_trans as bs cs h₁ h₂⟩

theorem listLe_antisymm : ∀ as bs : List Char,
    listLe as bs = true → listLe bs as = true → as = bs
  | [], [], _, _ => rfl
  | [], _ :: _, _, h => by simp [listLe] at h
  | _ :: _, [], h, _ => by simp [listLe] at h
  | a :: as, b :: bs, h₁, h₂ => by
    simp only [listLe, Bool.or_eq_true, decide_eq_true_eq, Bool.and_eq_true, beq_iff_eq] at h₁ h₂
    rcases h₁ with h₁ | ⟨rfl, h₁⟩
    · rcases h₂ with h₂ | ⟨h₂e, h₂⟩
      · exact absurd h₂ (lt_asymm h₁)
      · exact absurd h₁ (h₂e ▸ lt_irrefl b)
    · rcases h₂ with h₂ | ⟨_, h₂⟩
      · exact absurd h₂ (lt_irrefl a)
      · exact congrArg (a :: ·) (listLe_antisymm as bs h₁ h₂)

theorem listLe_refl (as : List Char) : listLe as as = true := by
  rcases listLe_total as as with h | h <;> exact h

instance : IsTotal String strLeRel := ⟨fun a b => listLe_total a.data b.data⟩

instance : IsTrans String strLeRel := ⟨fun a b c => listLe_trans a.data b.data c.data⟩

instance : IsAntisymm String strLeRel :=
  ⟨fun a b h₁ h₂ => congrArg String.mk (listLe_antisymm a.data b.data h₁ h₂)⟩

/-- Python's `sorted` on a list of strings (stable; on the deduplicated
lists we feed it, stability is irrelevant and any sort agrees). -/
def pySortStrings (l : List String) : List String := l.insertionSort strLeRel

/-- Bool test that `pre` is a prefix of `l`; embeds `str.startswith`. -/
def beginsWith : List Char → List Char → Bool
  | [], _ => true
  | _ :: _, [] => false
  | a :: pre, b :: s => a == b && beginsWith pre s

/-- Python `s.startswith(pre)`. -/
def pyStartsWith (s pre : String) : Bool := beginsWith pre.data s.data

/-- Bool test that `suf` is a suffix of `l`; embeds `str.endswith`. -/
def endsList (suf l : List Char) : Bool := beginsWith suf.reverse l.reverse

/-- Python `s.endswith(suf)`. -/
def pyEndsWith (s suf : String) : Bool := endsList suf.data s.data

/-- Bool substring test; embeds the Python `in` operator on strings. -/
def hasSub : List Char → List Char → Bool
  | sub, [] => sub.isEmpty
  | sub, c :: rest => beginsWith sub (c :: rest) || hasSub sub rest

/-- Python `sub in s` for strings. -/
def pyInStr (sub s : String) : Bool := hasSub sub.data s.data

/-- Characters of `l` strictly before the first `'.'`; embeds
`s.split(".")[0]` (the whole string when no dot occurs). -/
def firstSegList : List Char → List Char
  | [] => []
  | c :: rest => if c == '.' then [] else c :: firstSegList rest

/-- Python `s.split(".")[0]`: the first dotted segment of a module path. -/
def firstSeg (s : String) : String := String.mk (firstSegList s.data)

/-- Python `s.lower()` (ASCII case folding, which covers the package and
module names this tool manipulates). -/
def pyLower (s : String) : String := String.mk (s.data.map Char.toLower)

/-- Python `s.lower().replace("_", "-")`, the normalization used by the
distribution-picking heuristic. Since the pattern is a single character,
`replace` is exactly a per-character substitution. -/
def lowerHyphen (s : String) : String :=
  String.mk (s.data.map (fun c => if c.toLower = '_' then '-' else c.toLower))

/-- Embeds `normalize_dist_name`: `name.replace("_", "-")` (simplified
PEP 503 normalization; single-character pattern, so per-character). -/
def normalize_dist_name (name : String) : String :=
  String.mk (name.data.map (fun c => if c = '_' then '-' else c))

/-! ## Import extraction (`extract_top_level_imports`)

A Python file parses (via `ast.parse`) either to a syntax tree or fails
with `SyntaxError`; this is modelled as `Option PyBody`. `ast.walk`
visits every node of the tree, at any nesting depth; the statement kinds
that matter to the extractor are `ast.Import` and `ast.ImportFrom`, and
the compound statements (`FunctionDef`, `ClassDef`, `If`, ...) whose
bodies `ast.walk` descends into. Everything else is a `leaf`. -/

mutual
inductive PyNode : Type where
  | imp (names : List String) : PyNode
  | impFrom (level : Nat) (modname : Option String) (names : List String) : PyNode
  | funcDef (body : PyBody) : PyNode
  | classDef (body : PyBody) : PyNode
  | ifStmt (body orelse : PyBody) : PyNode
  | leaf : PyNode
inductive PyBody : Type where
  | nil : PyBody
  | cons (stmt : PyNode) (rest : PyBody) : PyBody
end

/-- Names contributed by a single visited node, per the two `isinstance`
branches of `extract_top_level_imports`:
for `ast.Import`, `(alias.name or "").split(".")[0]` for each alias,
kept when non-empty; for `ast.ImportFrom`, skipped entirely when
`node.level` is non-zero (relative import), otherwise
`node.module.split(".")[0]` when `node.module` is truthy and the segment
is non-empty. The `names` field of `impFrom` (the `ast.alias` list of the
statement) is present in the AST but never read by the code. -/
def nodeImports : PyNode → List String
  | .imp names => (names.map firstSeg).filter (fun n => n ≠ "")
  | .impFrom level mo _ =>
    if level != 0 then []
    else
      match mo with
      | none => []
      | some m =>
        if m = "" then []
        else if firstSeg m = "" then [] else [firstSeg m]
  | _ => []

mutual
/-- All nodes visited by `ast.walk` starting from one statement. -/
def nodeWalk : PyNode → List PyNode
  | .funcDef body => .funcDef body :: bodyWalk body
  | .classDef body => .classDef body :: bodyWalk body
  | .ifStmt body orelse => .ifStmt body orelse :: (bodyWalk body ++ bodyWalk orelse)
  | n => [n]
/-- All nodes visited by `ast.walk` over a statement sequence. -/
def bodyWalk : PyBody → List PyNode
  | .nil => []
  | .cons n rest => nodeWalk n ++ bodyWalk rest
end

/-- Embeds `extract_top_level_imports`: on `SyntaxError` (`none`) the
empty set; otherwise the set of names contributed by all walked nodes.
The Python `set` is modelled as a duplicate-free list; membership is the
meaningful observation. -/
def extract_top_level_imports (parsed : Option PyBody) : List String :=
  match parsed with
  | none => []
  | some b => (((bodyWalk b).map nodeImports).flatten).dedup

/-- The statement is a relative (`level != 0`) from-import. -/
def isRelImport : PyNode → Bool
  | .impFrom level _ _ => level != 0
  | _ => false

mutual
/-- Recursively delete every relative from-import from a statement. -/
def eraseRelNode : PyNode → PyNode
  | .funcDef body => .funcDef (eraseRelBody body)
  | .classDef body => .classDef (eraseRelBody body)
  | .ifStmt body orelse => .ifStmt (eraseRelBody body) (eraseRelBody orelse)
  | n => n
/-- Recursively delete every relative from-import from a body. -/
def eraseRelBody : PyBody → PyBody
  | .nil => .nil
  | .cons n rest =>
    if isRelImport n then eraseRelBody rest
    else .cons (eraseRelNode n) (eraseRelBody rest)
end

/-- The `all_imports |= extract_top_level_imports(f)` accumulation loop of
`main`, over the (parsed) scanned files: the union of all files' name
sets. -/
def scan_imports (files : List (Option PyBody)) : List String :=
  ((files.map extract_top_level_imports).flatten).dedup

/-! ## File discovery (`find_python_files`) -/

/-- The fixed directory exclusion set of the script. -/
def EXCLUDE_DIRS : List String :=
  [".git", ".hg", ".svn", "__pycache__", ".mypy_cache", ".pytest_cache",
   ".tox", ".venv", "venv", "env", "build", "dist", ".idea", ".vscode"]

/-- The fixed filename-suffix exclusion set of the script. -/
def EXCLUDE_FILE_SUFFIXES : List String := ["_pb2.py"]

/-- The per-filename test of `find_python_files`:
`fn.endswith(".py") and not any(fn.endswith(suf) for suf in
EXCLUDE_FILE_SUFFIXES)`. -/
def keepFileName (fn : String) : Bool :=
  pyEndsWith fn ".py" && !(EXCLUDE_FILE_SUFFIXES.any (fun suf => pyEndsWith fn suf))

/-! A directory tree as `os.walk` sees it: the files of a directory plus
its named subdirectories. -/

mutual
inductive DirTree : Type where
  | node (files : List String) (subdirs : DirEntries) : DirTree
inductive DirEntries : Type where
  | nil : DirEntries
  | cons (dname : String) (tree : DirTree) (rest : DirEntries) : DirEntries
end

mutual
/-- The `os.walk` loop of `find_python_files`: collect kept filenames of
the current directory, prune subdirectories named in `EXCLUDE_DIRS`
(`dirnames[:] = [d for d in dirnames if d not in EXCLUDE_DIRS]`) before
descending, and recurse. Paths are returned as component lists relative
to the walk root. -/
def walkTree : DirTree → List (List String)
  | .node files subdirs =>
    (files.filter keepFileName).map (fun f => [f]) ++ walkEntries subdirs
/-- Walk the (pruned) subdirectory entries of one directory. -/
def walkEntries : DirEntries → List (List String)
  | .nil => []
  | .cons d t rest =>
    (if d ∈ EXCLUDE_DIRS then [] else (walkTree t).map (fun p => d :: p)) ++ walkEntries rest
end

/-- Embeds `find_python_files`. -/
def find_python_files (t : DirTree) : List (List String) := walkTree t

/-! ## Origin classification (`is_local_module`, `classify_module_origin`) -/

/-- The result of `importlib.util.find_spec`: `origin` (a path, or the
marker strings `"built-in"` / `"frozen"`, or `None`) and
`submodule_search_locations` (package search directories; `None` and the
empty list are indistinguishable to the code, which only iterates the
truthy value, so both are modelled as `[]`). -/
structure ModuleSpec : Type where
  origin : Option String
  submodule_search_locations : List String

/-- The interpreter and filesystem environment the classifier consults:
`fs_exists` is `pathlib.Path.exists`, `find_spec` is
`importlib.util.find_spec` (pure metadata lookup, no module execution),
and `norm` is `os.path.normcase(os.path.abspath(.))`, kept abstract. -/
structure PyEnv : Type where
  fs_exists : String → Bool
  find_spec : String → Option ModuleSpec
  norm : String → String

/-- Embeds `is_local_module`: a `{name}.py` file or a `{name}/__init__.py`
package-init exists directly under the project root (paths joined with
the POSIX separator, as `pathlib` does on POSIX). -/
def is_local_module (env : PyEnv) (name project_root : String) : Bool :=
  env.fs_exists (project_root ++ "/" ++ name ++ ".py")
    || env.fs_exists (project_root ++ "/" ++ name ++ "/__init__.py")

/-- POSIX `os.sep`. -/
def pathSep : String := "/"

/-- The per-directory match test of `classify_module_origin`, applied to
already-normalized paths: `o.startswith(d + os.sep) or o == d`. -/
def dirMatch (o d : String) : Bool := pyStartsWith o (d ++ pathSep) || o == d

/-- The `origins` list built from a found spec: `spec.origin` when truthy,
then the `submodule_search_locations` (lines 141-145 of the script; the
falsy-origin filter is shared with the comprehension's `if p`). -/
def specOrigins (spec : ModuleSpec) : List String :=
  (match spec.origin with
   | some o => [o]
   | none => []) ++ spec.submodule_search_locations

/-- Embeds `classify_module_origin`: local check first, then `find_spec`,
then built-in/frozen, then the normalized-path tests against the project
root, the stdlib directory and the site directories, in that order.
`stdlib_dir` and `site_dirs` arrive already normalized, as produced by
`get_stdlib_dir` / `get_site_package_dirs`. -/
def classify_module_origin (env : PyEnv) (name project_root stdlib_dir : String)
    (site_dirs : List String) : String :=
  if is_local_module env name project_root then "local"
  else
    match env.find_spec name with
    | none => "unknown"
    | some spec =>
      if spec.origin == some "built-in" || spec.origin == some "frozen" then "stdlib"
      else
        let origins := ((specOrigins spec).filter (fun p => p != "")).map env.norm
        let proj := env.norm project_root
        if origins.any (fun o => dirMatch o proj) then "local"
        else if stdlib_dir != "" && origins.any (fun o => dirMatch o stdlib_dir) then "stdlib"
        else if origins.any (fun o => site_dirs.any (fun sd => dirMatch o sd)) then "thirdparty"
        else "unknown"

/-! ## Distribution resolution (`resolve_requirements` and its picker) -/

/-- The installed-package metadata the resolver consults: `top_to_dists`
is the reverse index built by `build_top_to_dists_map` (`dict.get`
returning `None` and an empty candidate list are both falsy to the code,
so both are modelled as `[]`), and `version` is `importlib.metadata.version`
(`none` models `PackageNotFoundError`). -/
structure DistEnv : Type where
  top_to_dists : String → List String
  version : String → Option String

/-- The score `pick_best_dist_for_module` assigns to candidate `d` for
normalized module name `modNorm`: `+100` for an exact normalized match,
`+10` when `modNorm` occurs in the normalized candidate, minus the
normalized candidate's length. -/
def distScore (modNorm d : String) : Int :=
  (if lowerHyphen d = modNorm then 100 else 0)
    + (if pyInStr modNorm (lowerHyphen d) then 10 else 0)
    - ((lowerHyphen d).data.length : Int)

/-- Descending lexicographic order on `(score, candidate)` pairs: the
order in which `scores.sort(reverse=True)` arranges Python tuples. -/
def scorePairGe (a b : Int × String) : Prop :=
  b.1 < a.1 ∨ (b.1 = a.1 ∧ pyStrLe b.2 a.2 = true)

instance : DecidableRel scorePairGe := fun a b =>
  inferInstanceAs (Decidable (_ ∨ _))

/-- Embeds `pick_best_dist_for_module`: score every candidate, sort the
`(score, name)` pairs descending, return the name of the first. The
Python code indexes `scores[0]` and so assumes a non-empty candidate
list (its only caller guards this); on `[]` the model returns `""`. -/
def pick_best_dist_for_module (modname : String) (dists : List String) : String :=
  let modNorm := lowerHyphen modname
  let scored := dists.map (fun d => (distScore modNorm d, d))
  ((scored.insertionSort scorePairGe).headD (0, "")).2

/-- Python `dict` assignment `reqs[k] = v` on an insertion-ordered
association list: overwrite in place when the key is present (keeping
its position), otherwise append. -/
def dictSet (reqs : List (String × String)) (k v : String) : List (String × String) :=
  if reqs.any (fun p => p.1 == k) then
    reqs.map (fun p => if p.1 == k then (k, v) else p)
  else reqs ++ [(k, v)]

/-- One iteration of the `for mod in sorted(set(modules))` loop of
`resolve_requirements`: no candidate distributions → `mod` is recorded
unresolved; otherwise the best candidate is picked and its installed
version looked up — missing version metadata also records `mod`
unresolved, and success stores the pinned version under the normalized
distribution name. -/
def resolve_step (env : DistEnv) (acc : List (String × String) × List String)
    (modname : String) : List (String × String) × List String :=
  match env.top_to_dists modname with
  | [] => (acc.1, acc.2 ++ [modname])
  | d :: ds =>
    let chosen := pick_best_dist_for_module modname (d :: ds)
    match env.version chosen with
    | none => (acc.1, acc.2 ++ [modname])
    | some ver => (dictSet acc.1 (normalize_dist_name chosen) ver, acc.2)

/-- Embeds `resolve_requirements`: iterate `resolve_step` over the
sorted, deduplicated module names, starting from an empty requirements
dict and an empty unresolved list. -/
def resolve_requirements (env : DistEnv) (modules : List String) :
    List (String × String) × List String :=
  (pySortStrings modules.dedup).foldl (resolve_step env) ([], [])

/-! ## Manifest writing and diagnostics (`main`, lines 300-316) -/

/-- The manifest sort key order: `sorted(reqs_map.items(), key=lambda x:
x[0].lower())` compares entries by the lowercased package name. -/
def manifestKeyLe (a b : String × String) : Prop :=
  pyStrLe (pyLower a.1) (pyLower b.1) = true

instance : DecidableRel manifestKeyLe := fun a b =>
  inferInstanceAs (Decidable (_ = true))

/-- The resolved entries in manifest order (stable case-insensitive sort
of the dict's insertion order, as Python's stable `sorted` produces). -/
def sortedReqs (reqs : List (String × String)) : List (String × String) :=
  reqs.insertionSort manifestKeyLe

/-- The manifest lines: one `f"{dist}=={ver}"` per sorted entry. -/
def manifest_lines (reqs : List (String × String)) : List String :=
  (sortedReqs reqs).map (fun p => p.1 ++ "==" ++ p.2)

/-- Embeds the manifest write of `main`:
`"\n".join(lines) + ("\n" if lines else "")`. -/
def write_manifest (reqs : List (String × String)) : String :=
  String.intercalate "\n" (manifest_lines reqs)
    ++ (if (manifest_lines reqs).isEmpty then "" else "\n")

/-- Embeds the warning computation of `main`:
`unresolved_set = set(unresolved) - set(reqs_map.keys())`, printed in
sorted order when non-empty. The set difference is modelled as a filter
plus deduplication; membership is the meaningful observation. -/
def unresolved_warning_list (unresolved : List String)
    (reqs : List (String × String)) : List String :=
  pySortStrings ((unresolved.filter (fun m => !(reqs.any (fun p => p.1 == m)))).dedup)

/-! ## Concrete environments and trees used by witnesses and counterexamples -/

/-- An environment where `/proj/requests.py` exists locally while the
interpreter would also find an installed `requests` under a site
directory: the local-shadowing situation of the spec. -/
def envLocalShadow : PyEnv :=
  { fs_exists := fun p => p == "/proj/requests.py"
    find_spec := fun _ =>
      some { origin := some "/site/requests/__init__.py"
             submodule_search_locations := ["/site/requests"] }
    norm := fun p => p }

/-- Metadata where both import names `yaml` and `pyyaml` are provided by
the single installed distribution `PyYAML`, version `6.0.1`. -/
def envYaml : DistEnv :=
  { top_to_dists := fun m => if m == "yaml" || m == "pyyaml" then ["PyYAML"] else []
    version := fun d => if d == "PyYAML" then some "6.0.1" else none }

/-- Metadata where import name `bar` resolves to a distribution named
`foo`, while import name `foo` itself has no provider: the unresolved
name collides with a resolved distribution key. -/
def envShadowWarn : DistEnv :=
  { top_to_dists := fun m => if m == "bar" then ["foo"] else []
    version := fun d => if d == "foo" then some "1.0" else none }

/-- Metadata mapping `m1` to a distribution `aB` and `m2` to `Ab`. -/
def envCaseA : DistEnv :=
  { top_to_dists := fun m => if m == "m1" then ["aB"] else if m == "m2" then ["Ab"] else []
    version := fun d => if d == "aB" then some "1" else if d == "Ab" then some "2" else none }

/-- Metadata mapping `m1` to a distribution `Ab` and `m2` to `aB`: the
same two distributions as `envCaseA`, provided the other way around. -/
def envCaseB : DistEnv :=
  { top_to_dists := fun m => if m == "m1" then ["Ab"] else if m == "m2" then ["aB"] else []
    version := fun d => if d == "aB" then some "1" else if d == "Ab" then some "2" else none }

/-- A 112-character module name (length beyond the `+100` exact-match
bonus plus the `+10` substring bonus of the scoring heuristic). -/
def bigModName : String := String.mk (List.replicate 112 'a')

/-- A small project tree: `main.py` and `README.md` at the root, a `src`
subdirectory with `util.py`, and a `.git` subdirectory containing
`config.py`. -/
def treeSample : DirTree :=
  .node ["main.py", "README.md"]
    (.cons "src" (.node ["util.py"] .nil)
      (.cons ".git" (.node ["config.py"] .nil) .nil))

/-- A module body whose only import statement sits inside an `if` block
inside a function body: `import requests.sessions` nested two deep. -/
def bodySample : PyBody :=
  .cons (.funcDef (.cons (.ifStmt (.cons (.imp ["requests.sessions"]) .nil) .nil) .nil)) .nil

/-! ## Helper lemmas -/

theorem beginsWith_iff : ∀ p l : List Char, beginsWith p l = true ↔ ∃ t, l = p ++ t
  | [], l => by simp [beginsWith]
  | a :: p, [] => by
    constructor
    · intro h; exact absurd h (by simp [beginsWith])
    · rintro ⟨t, ht⟩; exact absurd ht (by simp)
  | a :: p, b :: l => by
    simp only [beginsWith, Bool.and_eq_true, beq_iff_eq]
    constructor
    · rintro ⟨rfl, h⟩
      obtain ⟨t, rfl⟩ := (beginsWith_iff p l).mp h
      exact ⟨t, rfl⟩
    · rintro ⟨t, ht⟩
      rw [List.cons_append] at ht
      obtain ⟨rfl, rfl⟩ := List.cons.injEq .. ▸ ht
      exact ⟨rfl, (beginsWith_iff p (p ++ t)).mpr ⟨t, rfl⟩⟩

instance : IsTotal (Int × String) scorePairGe :=
  ⟨fun a b => by
    rcases lt_trichotomy a.1 b.1 with h | h | h
    · exact Or.inr (Or.inl h)
    · rcases listLe_total a.2.data b.2.data with hs | hs
      · exact Or.inr (Or.inr ⟨h, hs⟩)
      · exact Or.inl (Or.inr ⟨h.symm, hs⟩)
    · exact Or.inl (Or.inl h)⟩

instance : IsTrans (Int × String) scorePairGe :=
  ⟨fun a b c hab hbc => by
    rcases hab with hab | ⟨hab₁, hab₂⟩
    · rcases hbc with hbc | ⟨hbc₁, hbc₂⟩
      · exact Or.inl (lt_trans hbc hab)
      · exact Or.inl (hbc₁ ▸ hab)
    · rcases hbc with hbc | ⟨hbc₁, hbc₂⟩
      · exact Or.inl (hab₁ ▸ hbc)
      · exact Or.inr ⟨hab₁ ▸ hbc₁, listLe_trans c.2.data b.2.data a.2.data hbc₂ hab₂⟩⟩

theorem scorePairGe_refl (a : Int × String) : scorePairGe a a :=
  Or.inr ⟨rfl, listLe_refl a.2.data⟩

instance : IsTotal (String × String) manifestKeyLe :=
  ⟨fun a b => listLe_total (pyLower a.1).data (pyLower b.1).data⟩

instance : IsTrans (String × String) manifestKeyLe :=
  ⟨fun a b c => listLe_trans (pyLower a.1).data (pyLower b.1).data (pyLower c.1).data⟩

/-- The head of a descending insertion sort dominates every element of
the input list (with respect to a total transitive relation). -/
theorem headD_insertionSort_rel {α : Type} (r : α → α → Prop) [DecidableRel r]
    [IsTotal α r] [IsTrans α r] (hrefl : ∀ a, r a a) (l : List α) (x : α) (hx : x ∈ l)
    (dflt : α) : r ((l.insertionSort r).headD dflt) x := by
  have hperm := List.perm_insertionSort r l
  have hsorted := List.sorted_insertionSort r l
  have hxs : x ∈ l.insertionSort r := hperm.mem_iff.mpr hx
  cases hs : l.insertionSort r with
  | nil => rw [hs] at hxs; exact absurd hxs (List.not_mem_nil x)
  | cons a t =>
    rw [hs] at hxs hsorted
    rcases List.mem_cons.mp hxs with rfl | hxt
    · exact hrefl x
    · exact List.rel_of_sorted_cons hsorted x hxt

theorem normalize_no_underscore (s : String) : '_' ∉ (normalize_dist_name s).data := by
  intro h
  obtain ⟨a, _, ha⟩ := List.mem_map.mp h
  by_cases hc : a = '_' <;> simp [hc] at ha

theorem dictSet_keys_pres (reqs : List (String × String)) (k v : String)
    (h : ∀ p ∈ reqs, '_' ∉ p.1.data) (hk : '_' ∉ k.data) :
    ∀ p ∈ dictSet reqs k v, '_' ∉ p.1.data := by
  intro p hp
  unfold dictSet at hp
  split at hp
  · obtain ⟨q, hq, hpq⟩ := List.mem_map.mp hp
    by_cases hqk : (q.1 == k) = true
    · rw [if_pos hqk] at hpq; rw [← hpq]; exact hk
    · rw [if_neg hqk] at hpq; rw [← hpq]; exact h q hq
  · rcases List.mem_append.mp hp with h₁ | h₁
    · exact h p h₁
    · rw [List.mem_singleton.mp h₁]; exact hk

theorem resolve_step_keys_pres (env : DistEnv) (acc : List (String × String) × List String)
    (m : String) (h : ∀ p ∈ acc.1, '_' ∉ p.1.data) :
    ∀ p ∈ (resolve_step env acc m).1, '_' ∉ p.1.data := by
  intro p hp
  simp only [resolve_step] at hp
  cases hm : env.top_to_dists m with
  | nil => rw [hm] at hp; exact h p hp
  | cons d ds =>
    rw [hm] at hp
    simp only at hp
    cases hv : env.version (pick_best_dist_for_module m (d :: ds)) with
    | none => rw [hv] at hp; exact h p hp
    | some ver =>
      rw [hv] at hp
      exact dictSet_keys_pres acc.1 _ ver h (normalize_no_underscore _) p hp

theorem resolve_fold_keys_pres (env : DistEnv) :
    ∀ (mods : List String) (acc : List (String × String) × List String),
      (∀ p ∈ acc.1, '_' ∉ p.1.data) →
      ∀ p ∈ (mods.foldl (resolve_step env) acc).1, '_' ∉ p.1.data
  | [], _, h => h
  | m :: ms, acc, h => by
    rw [List.foldl_cons]
    exact resolve_fold_keys_pres env ms (resolve_step env acc m)
      (resolve_step_keys_pres env acc m h)

mutual
theorem nodeWalk_erase : ∀ n : PyNode,
    ((nodeWalk (eraseRelNode n)).map nodeImports).flatten
      = ((nodeWalk n).map nodeImports).flatten
  | .imp _ => rfl
  | .impFrom _ _ _ => rfl
  | .leaf => rfl
  | .funcDef body => by
    simp [eraseRelNode, nodeWalk, nodeImports, bodyWalk_erase body]
  | .classDef body => by
    simp [eraseRelNode, nodeWalk, nodeImports, bodyWalk_erase body]
  | .ifStmt body orelse => by
    simp [eraseRelNode, nodeWalk, nodeImports, bodyWalk_erase body, bodyWalk_erase orelse]
theorem bodyWalk_erase : ∀ b : PyBody,
    ((bodyWalk (eraseRelBody b)).map nodeImports).flatten
      = ((bodyWalk b).map nodeImports).flatten
  | .nil => rfl
  | .cons n rest => by
    by_cases h : isRelImport n = true
    · have hn : nodeImports n = [] := by
        cases n <;> simp_all [isRelImport, nodeImports]
      have hw : nodeWalk n = [n] := by
        cases n <;> simp_all [isRelImport, nodeWalk]
      simp [eraseRelBody, h, bodyWalk, hw, hn, bodyWalk_erase rest]
    · simp [eraseRelBody, h, bodyWalk, nodeWalk_erase n, bodyWalk_erase rest]
end

mutual
theorem walkTree_paths : ∀ t : DirTree, ∀ p ∈ walkTree t,
    p ≠ [] ∧ ∀ c ∈ p.dropLast, c ∉ EXCLUDE_DIRS
  | .node files subdirs => by
    intro p hp
    simp only [walkTree] at hp
    rcases List.mem_append.mp hp with h | h
    · obtain ⟨f, _, rfl⟩ := List.mem_map.mp h
      exact ⟨by simp, by simp⟩
    · exact walkEntries_paths subdirs p h
theorem walkEntries_paths : ∀ es : DirEntries, ∀ p ∈ walkEntries es,
    p ≠ [] ∧ ∀ c ∈ p.dropLast, c ∉ EXCLUDE_DIRS
  | .nil => by intro p hp; exact absurd hp (List.not_mem_nil p)
  | .cons d t rest => by
    intro p hp
    simp only [walkEntries] at hp
    rcases List.mem_append.mp hp with h | h
    · by_cases hd : d ∈ EXCLUDE_DIRS
      · rw [if_pos hd] at h; exact absurd h (List.not_mem_nil p)
      · rw [if_neg hd] at h
        obtain ⟨q, hq, rfl⟩ := List.mem_map.mp h
        obtain ⟨hne, hrec⟩ := walkTree_paths t q hq
        refine ⟨by simp, ?_⟩
        intro c hc
        cases q with
        | nil => exact absurd rfl hne
        | cons a as =>
          rw [List.dropLast_cons₂] at hc
          rcases List.mem_cons.mp hc with rfl | hc₂
          · exact hd
          · exact hrec c hc₂
    · exact walkEntries_paths rest p h
end

theorem headD_insertionSort_mem {α : Type} (r : α → α → Prop) [DecidableRel r]
    (l : List α) (hne : l ≠ []) (dflt : α) : (l.insertionSort r).headD dflt ∈ l := by
  have hperm := List.perm_insertionSort r l
  cases hcase : l.insertionSort r with
  | nil =>
    exfalso
    have hlen := hperm.length_eq
    rw [hcase] at hlen
    exact hne (List.length_eq_zero.mp hlen.symm)
  | cons a t =>
    have ha : a ∈ l.insertionSort r := by rw [hcase]; exact List.mem_cons_self a t
    exact hperm.mem_iff.mp ha

theorem resolve_requirements_perm (env : DistEnv) (l₁ l₂ : List String)
    (h : List.Perm l₁ l₂) : resolve_requirements env l₁ = resolve_requirements env l₂ := by
  unfold resolve_requirements pySortStrings
  have hp : List.Perm (l₁.dedup.insertionSort strLeRel) (l₂.dedup.insertionSort strLeRel) :=
    (List.perm_insertionSort strLeRel l₁.dedup).trans
      (h.dedup.trans (List.perm_insertionSort strLeRel l₂.dedup).symm)
  rw [List.eq_of_perm_of_sorted hp (List.sorted_insertionSort strLeRel l₁.dedup)
    (List.sorted_insertionSort strLeRel l₂.dedup)]

/-! ## Claim theorems -/

/-- C1: whenever `{name}.py` or `{name}/__init__.py` exists directly
under the project root, `classify_module_origin` returns `"local"`,
whatever `find_spec`, the stdlib directory and the site directories say:
the filesystem check runs first and short-circuits every other check. -/
theorem classify_local_first (env : PyEnv) (name project_root stdlib_dir : String)
    (site_dirs : List String)
    (h : env.fs_exists (project_root ++ "/" ++ name ++ ".py") = true
       ∨ env.fs_exists (project_root ++ "/" ++ name ++ "/__init__.py") = true) :
    classify_module_origin env name project_root stdlib_dir site_dirs = "local" := by
  have hl : is_local_module env name project_root = true := by
    rcases h with h | h <;> simp [is_local_module, h]
  simp [classify_module_origin, hl]

/-- C1 witness: `/proj/requests.py` exists while the interpreter would
resolve `requests` to a site-packages spec; the classifier still answers
`"local"`. -/
theorem classify_local_first_witness :
    classify_module_origin envLocalShadow "requests" "/proj" "/usr/lib/python3.11"
      ["/usr/lib/python3.11/site-packages"] = "local" :=
  classify_local_first envLocalShadow "requests" "/proj" "/usr/lib/python3.11"
    ["/usr/lib/python3.11/site-packages"] (Or.inl (by decide))

/-- C4: the per-directory match test of `classify_module_origin` accepts
a (normalized) origin path `o` against a reference directory `d` exactly
when `o` equals `d` or lies beneath `d` with a separator boundary; in
particular `/lib-extra/pkg.py` does not match the reference directory
`/lib`. -/
theorem dirMatch_boundary :
    (∀ o d : String, dirMatch o d = true ↔ (o = d ∨ ∃ rest : String, o = d ++ pathSep ++ rest))
  ∧ dirMatch "/lib-extra/pkg.py" "/lib" = false := by
  constructor
  · intro o d
    constructor
    · intro h
      simp only [dirMatch, Bool.or_eq_true, beq_iff_eq] at h
      rcases h with h | h
      · right
        obtain ⟨t, ht⟩ := (beginsWith_iff (d ++ pathSep).data o.data).mp h
        refine ⟨String.mk t, ?_⟩
        have hdata : o.data = (d ++ pathSep ++ String.mk t).data := by
          simp only [String.data_append, ht]
        exact congrArg String.mk hdata
      · left; exact h
    · rintro (rfl | ⟨rest, rfl⟩)
      · simp [dirMatch]
      · have hbw : pyStartsWith (d ++ pathSep ++ rest) (d ++ pathSep) = true := by
          apply (beginsWith_iff (d ++ pathSep).data (d ++ pathSep ++ rest).data).mpr
          exact ⟨rest.data, by simp [String.data_append]⟩
        simp [dirMatch, hbw]
  · decide

/-- C7: no path produced by `find_python_files` passes through a
directory named in `EXCLUDE_DIRS`, at any depth, and an excluded
directory is pruned before being descended into: the walk result does
not depend on the contents of an excluded subtree. -/
theorem find_python_files_excluded :
    (∀ t : DirTree, ∀ p ∈ find_python_files t, ∀ c ∈ p.dropLast, c ∉ EXCLUDE_DIRS)
  ∧ (∀ (files : List String) (d : String) (t₁ t₂ : DirTree) (rest : DirEntries),
      d ∈ EXCLUDE_DIRS →
      walkTree (.node files (.cons d t₁ rest)) = walkTree (.node files (.cons d t₂ rest))) := by
  constructor
  · intro t p hp
    exact (walkTree_paths t p hp).2
  · intro files d t₁ t₂ rest hd
    simp [walkTree, walkEntries, hd]

/-- C7 witness: in the sample tree, `src/util.py` is found and its
directory component is not excluded; and two trees differing only
inside a `.git` subtree walk to the same file list. -/
theorem find_python_files_excluded_witness :
    ("src" : String) ∉ EXCLUDE_DIRS
  ∧ walkTree (.node [] (.cons ".git" (.node ["a.py"] .nil) .nil))
      = walkTree (.node [] (.cons ".git" (.node ["b.py"] .nil) .nil)) :=
  ⟨find_python_files_excluded.1 treeSample ["src", "util.py"] (by decide) "src" (by decide),
   find_python_files_excluded.2 [] ".git" (.node ["a.py"] .nil) (.node ["b.py"] .nil) .nil
     (by decide)⟩

/-- C3: relative imports contribute nothing to the extracted name set:
deleting every relative from-import from a module leaves the extraction
unchanged, and in particular a file consisting of `from . import helper`
extracts the empty set. -/
theorem extract_skips_relative :
    (∀ b : PyBody,
      extract_top_level_imports (some (eraseRelBody b)) = extract_top_level_imports (some b))
  ∧ extract_top_level_imports (some (.cons (.impFrom 1 none ["helper"]) .nil)) = [] := by
  constructor
  · intro b
    show (((bodyWalk (eraseRelBody b)).map nodeImports).flatten).dedup = _
    rw [bodyWalk_erase b]
    rfl
  · rfl

/-- C8: a file that fails to parse contributes the empty set, without
aborting anything: the scan over the remaining files is unchanged. -/
theorem extract_parse_error_empty :
    extract_top_level_imports none = []
  ∧ (∀ rest : List (Option PyBody), scan_imports (none :: rest) = scan_imports rest) :=
  ⟨rfl, fun rest => by simp [scan_imports, extract_top_level_imports]⟩

/-- C10: the extractor collects the first dotted segment of every import
statement reached by the AST walk, at any nesting depth — any name
contributed by any walked node is in the extraction result. -/
theorem extract_collects_nested (b : PyBody) (node : PyNode) (n : String)
    (hnode : node ∈ bodyWalk b) (hn : n ∈ nodeImports node) :
    n ∈ extract_top_level_imports (some b) := by
  unfold extract_top_level_imports
  exact List.mem_dedup.mpr
    (List.mem_flatten.mpr ⟨nodeImports node, List.mem_map_of_mem nodeImports hnode, hn⟩)

/-- C10 witness: `import requests.sessions` nested inside an `if` inside
a function body still contributes `requests`. -/
theorem extract_collects_nested_witness :
    "requests" ∈ extract_top_level_imports (some bodySample) :=
  extract_collects_nested bodySample (.imp ["requests.sessions"]) "requests"
    (by simp [bodySample, bodyWalk, nodeWalk])
    (by simp [nodeImports, firstSeg, firstSegList])

/-- C2 counterexample: with `yaml` and `pyyaml` both provided by the
installed distribution `PyYAML`, the resolved mapping has exactly one
entry — but the manifest's single line is `PyYAML==6.0.1`, not
`pyyaml==<version>`: `normalize_dist_name` replaces underscores only and
does not lowercase. -/
theorem resolve_pyyaml_line_counterexample :
    (resolve_requirements envYaml ["yaml", "pyyaml"]).1.length = 1
  ∧ write_manifest (resolve_requirements envYaml ["yaml", "pyyaml"]).1 = "PyYAML==6.0.1\n"
  ∧ pyStartsWith (write_manifest (resolve_requirements envYaml ["yaml", "pyyaml"]).1)
      "pyyaml==" = false := by decide

/-- C2 (amended): every key of the resolved mapping is underscore-free
(the underscore-to-hyphen normalization), so two import names resolving
to the same distribution yield exactly one manifest entry; for `yaml`
and `pyyaml` both resolving to `PyYAML` the manifest is the single line
`PyYAML==6.0.1` (distribution-name case preserved). -/
theorem resolve_keys_normalized :
    (∀ (env : DistEnv) (mods : List String), ∀ p ∈ (resolve_requirements env mods).1,
        '_' ∉ p.1.data)
  ∧ (resolve_requirements envYaml ["yaml", "pyyaml"]).1 = [("PyYAML", "6.0.1")]
  ∧ manifest_lines (resolve_requirements envYaml ["yaml", "pyyaml"]).1 = ["PyYAML==6.0.1"] := by
  refine ⟨?_, by decide, by decide⟩
  intro env mods
  exact resolve_fold_keys_pres env (pySortStrings mods.dedup) ([], [])
    (fun p hp => absurd hp (List.not_mem_nil p))

/-- C2 witness: the key of the concrete resolved entry is
underscore-free. -/
theorem resolve_keys_normalized_witness :
    '_' ∉ ((("PyYAML", "6.0.1") : String × String)).1.data :=
  resolve_keys_normalized.1 envYaml ["yaml", "pyyaml"] ("PyYAML", "6.0.1") (by decide)

/-- C5 counterexample: for a 112-character module name, the exact
normalized match loses to the unrelated one-character candidate `b`,
because the length penalty (−112) outweighs the exact-match and
substring bonuses (+110): the claimed "exact beats every non-exact"
ordering does not hold unconditionally. -/
theorem pick_best_exact_loses_counterexample :
    pick_best_dist_for_module bigModName [bigModName, "b"] = "b"
  ∧ lowerHyphen "b" ≠ lowerHyphen bigModName := by decide

/-- C5 (amended): `pick_best_dist_for_module` is a deterministic total
function of its inputs; on a non-empty candidate list it returns a
candidate maximizing the score (+100 exact normalized match, +10
substring containment, minus normalized length), with score ties broken
toward the code-point-wise larger candidate string (the fixed order the
descending tuple sort produces). -/
theorem pick_best_dist_spec (modname d : String) (ds : List String) :
    pick_best_dist_for_module modname (d :: ds) ∈ d :: ds
  ∧ ∀ x ∈ d :: ds,
      distScore (lowerHyphen modname) x
          < distScore (lowerHyphen modname) (pick_best_dist_for_module modname (d :: ds))
        ∨ (distScore (lowerHyphen modname) x
              = distScore (lowerHyphen modname) (pick_best_dist_for_module modname (d :: ds))
            ∧ pyStrLe x (pick_best_dist_for_module modname (d :: ds)) = true) := by
  obtain ⟨y, hy, hyeq⟩ := List.mem_map.mp
    (headD_insertionSort_mem scorePairGe
      ((d :: ds).map (fun z => (distScore (lowerHyphen modname) z, z)))
      (by simp) ((0 : Int), ""))
  have hpick : pick_best_dist_for_module modname (d :: ds) = y := by
    simp only [pick_best_dist_for_module, ← hyeq]
  constructor
  · rw [hpick]; exact hy
  · intro x hx
    have h := headD_insertionSort_rel scorePairGe scorePairGe_refl
      ((d :: ds).map (fun z => (distScore (lowerHyphen modname) z, z)))
      (distScore (lowerHyphen modname) x, x)
      (List.mem_map_of_mem (fun z => (distScore (lowerHyphen modname) z, z)) hx)
      ((0 : Int), "")
    rw [← hyeq] at h
    rw [hpick]
    exact h

/-- C5 witness: on a singleton candidate list the picked distribution is
that candidate. -/
theorem pick_best_dist_spec_witness :
    pick_best_dist_for_module "yaml" ["PyYAML"] ∈ ["PyYAML"] :=
  (pick_best_dist_spec "yaml" "PyYAML" []).1

/-- C6 counterexample: two runs of the resolver over the same import
names but mirrored metadata produce mappings with the same package-name
set `{aB, Ab}` yet different manifests — with case-insensitively equal
keys the line order follows dict insertion order, so it is not a pure
function of the package-name set alone. -/
theorem manifest_order_not_set_function :
    List.Perm ((resolve_requirements envCaseA ["m1", "m2"]).1.map Prod.fst)
      ((resolve_requirements envCaseB ["m1", "m2"]).1.map Prod.fst)
  ∧ write_manifest (resolve_requirements envCaseA ["m1", "m2"]).1
      ≠ write_manifest (resolve_requirements envCaseB ["m1", "m2"]).1 := by decide

/-- C6 (amended): the manifest has one `package==version` line per
resolved entry, in a case-insensitively sorted order (the stable sort of
the mapping's insertion order), with a trailing newline iff the mapping
is non-empty and an empty file for an empty mapping; the resolver's
output — and hence the manifest — is invariant under permutations of
the scanned import names, so the line order is independent of
file-discovery traversal order (though, by the counterexample, not a
function of the package-name set alone when names collide
case-insensitively). -/
theorem write_manifest_spec :
    (∀ reqs : List (String × String),
        List.Perm (manifest_lines reqs) (reqs.map (fun p => p.1 ++ "==" ++ p.2)))
  ∧ (∀ reqs : List (String × String), List.Sorted manifestKeyLe (sortedReqs reqs))
  ∧ write_manifest [] = ""
  ∧ (∀ reqs : List (String × String), reqs ≠ [] → ∃ s, write_manifest reqs = s ++ "\n")
  ∧ (∀ (env : DistEnv) (l₁ l₂ : List String), List.Perm l₁ l₂ →
        resolve_requirements env l₁ = resolve_requirements env l₂) := by
  refine ⟨?_, ?_, ?_, ?_, ?_⟩
  · intro reqs
    exact (List.perm_insertionSort manifestKeyLe reqs).map (fun p => p.1 ++ "==" ++ p.2)
  · intro reqs
    exact List.sorted_insertionSort manifestKeyLe reqs
  · rfl
  · intro reqs hne
    refine ⟨String.intercalate "\n" (manifest_lines reqs), ?_⟩
    have hlen : (manifest_lines reqs).length = reqs.length := by
      simp [manifest_lines, sortedReqs, List.length_insertionSort]
    have hnz : (manifest_lines reqs).isEmpty = false := by
      cases hml : manifest_lines reqs with
      | nil =>
        exfalso
        rw [hml] at hlen
        exact hne (List.length_eq_zero.mp hlen.symm)
      | cons a t => rfl
    simp [write_manifest, hnz]
  · intro env l₁ l₂ h
    exact resolve_requirements_perm env l₁ l₂ h

/-- C6 witness: a non-empty mapping's manifest ends with a newline, and
the resolver gives the same result for the scanned names in either
order. -/
theorem write_manifest_spec_witness :
    (∃ s, write_manifest [("requests", "2.31.0")] = s ++ "\n")
  ∧ resolve_requirements envYaml ["pyyaml", "yaml"] = resolve_requirements envYaml ["yaml", "pyyaml"] :=
  ⟨write_manifest_spec.2.2.2.1 [("requests", "2.31.0")] (by simp),
   write_manifest_spec.2.2.2.2 envYaml ["pyyaml", "yaml"] ["yaml", "pyyaml"] (by decide)⟩

/-- C9 counterexample: import name `foo` is reported unresolved (no
provider), while import name `bar` resolves to a distribution that
happens to be named `foo`; the warning computation subtracts the
resolved keys (`set(unresolved) - set(reqs_map.keys())`), so the
unresolved `foo` is omitted from the printed warning list. -/
theorem warning_omits_shadowed_counterexample :
    "foo" ∈ (resolve_requirements envShadowWarn ["bar", "foo"]).2
  ∧ "foo" ∉ unresolved_warning_list (resolve_requirements envShadowWarn ["bar", "foo"]).2
      (resolve_requirements envShadowWarn ["bar", "foo"]).1 := by decide

/-- C9 (amended): every name the resolver reports unresolved that does
not coincide with a key of the resolved mapping appears in the printed
warning list; a name equal to some resolved package key is subtracted
and omitted. -/
theorem warning_contains_unresolved (unres : List String)
    (reqs : List (String × String)) (m : String)
    (hm : m ∈ unres) (hk : ∀ p ∈ reqs, p.1 ≠ m) :
    m ∈ unresolved_warning_list unres reqs := by
  unfold unresolved_warning_list pySortStrings
  have hp : (!(reqs.any (fun p => p.1 == m))) = true := by
    rw [Bool.not_eq_true']
    rw [List.any_eq_false]
    intro p hpmem
    simp only [beq_iff_eq]
    exact hk p hpmem
  exact (List.perm_insertionSort strLeRel _).mem_iff.mpr
    (List.mem_dedup.mpr (List.mem_filter.mpr ⟨hm, hp⟩))

/-- C9 witness: an unresolved `numpy` with an empty resolved mapping
appears in the warning list. -/
theorem warning_contains_unresolved_witness :
    "numpy" ∈ unresolved_warning_list ["numpy"] [] :=
  warning_contains_unresolved ["numpy"] [] "numpy" (by simp)
    (fun p hp => absurd hp (List.not_mem_nil p))
